import Mathlib

/-!
kontainer.ooo: websocket dispatch server, gRPC response encoders, mock table

A shallow embedding of

* `pkg/websocket/server.go` (`Server`, `RegisterService`, `GetService`,
  `handleConnection`, `NewServer`),
* `pkg/customercontainer/transport_grpc.go` (the response encoders),
* `pkg/testutils/table.go` (`table`, `insert`, `delete`, `newTable`),

followed by the theorems about them.

Conventions.  A Go `error` is represented by its message (`Option String`
for a possibly-nil error, `Except String α` for a `(α, error)` pair): the code
only ever calls `.Error()` on it.  Code outside `server.go` that the dispatch
loop calls (the connection, the codec, the logger, the handlers) acts on an
abstract world `ω` that is threaded through every call.
-/

set_option autoImplicit false

/-! ## pkg/websocket -/

namespace websocket

/-- A `[]byte` value. -/
abbrev Frame := List UInt8

/-- Go's conversion `[]byte(s)` of a string to its bytes. -/
def bytes (s : String) : Frame := s.toUTF8.data.toList

/-- Handler type: called as `res, err := handler(data)`; `Val` stands for
`interface{}`.  A handler may have effects on the world; it is assumed to
return (a handler that panics or never returns is outside this model). -/
abbrev Handler (Val ω : Type) := Val → ω → Except String Val × ω

/-- The part of `ServiceDescription` that `server.go` uses: the field
`protocolName` and the method `GetEndpointHandler` (declared outside
`server.go`, so taken as given). -/
structure ServiceDescription (ProtoID Val ω : Type) where
  protocolName : ProtoID
  GetEndpointHandler : ProtoID → Except String (Handler Val ω)

/-- The `ProtocolHandler` interface (the codec), as used by `server.go`.  On
success `Decode` yields pointers `srv` and `me`, assumed non-nil and given here
by the identifiers they point to; `Encode` receives the same two pointers. -/
structure ProtocolHandler (ProtoID Val ω : Type) where
  Decode : Frame → ω → Except String (ProtoID × ProtoID × Val) × ω
  Encode : ProtoID → ProtoID → Val → ω → Except String Frame × ω

/-- The go-kit `log.Logger`, called as `Log("err", err)`. -/
structure Logger (ω : Type) where
  Log : String → String → ω → ω

/-- The methods of `*websocket.Conn` (gorilla) that `handleConnection` calls.
`ReadMessage` yields `(messageType, p, err)`. -/
structure Conn (ω : Type) where
  ReadMessage : ω → Except String (Int × Frame) × ω
  WriteMessage : Int → Frame → ω → Option String × ω
  Close : ω → ω

/-- The `Server` struct.  The Go map `services` is a finite partial function
from identifiers to descriptions. -/
structure Server (ProtoID Val ω : Type) where
  protocolHandler : ProtocolHandler ProtoID Val ω
  logger : Logger ω
  services : ProtoID → Option (ServiceDescription ProtoID Val ω)

section registry

variable {ProtoID Val ω : Type} [DecidableEq ProtoID] [ToString ProtoID]

/-- The message of `fmt.Errorf("Service Endpoint %s already exists", name)`;
`ToString` stands for the `%s` formatting of a `ProtoID`. -/
def errAlreadyExists (name : ProtoID) : String :=
  "Service Endpoint " ++ toString name ++ " already exists"

/-- The message of `fmt.Errorf("Service Description %s does not exists", name)`. -/
def errDoesNotExist (name : ProtoID) : String :=
  "Service Description " ++ toString name ++ " does not exists"

/-- The method `RegisterService`: the returned error and the server afterwards. -/
def Server.RegisterService (s : Server ProtoID Val ω)
    (sd : ServiceDescription ProtoID Val ω) : Option String × Server ProtoID Val ω :=
  match s.services sd.protocolName with
  | some _ => (some (errAlreadyExists sd.protocolName), s)
  | none =>
    (none, { s with services := fun k => if k = sd.protocolName then some sd else s.services k })

/-- The method `GetService`: the returned `(description, error)` pair and the server
afterwards. -/
def Server.GetService (s : Server ProtoID Val ω) (name : ProtoID) :
    Except String (ServiceDescription ProtoID Val ω) × Server ProtoID Val ω :=
  match s.services name with
  | none => (.error (errDoesNotExist name), s)
  | some sd => (.ok sd, s)

/-- The function `NewServer`: a server with an empty registry. -/
def NewServer (ph : ProtocolHandler ProtoID Val ω) (logger : Logger ω) : Server ProtoID Val ω :=
  { protocolHandler := ph, logger := logger, services := fun _ => none }

/-- A finite sequence of `RegisterService` calls, one per description, in
order; the returned errors are dropped. -/
def registerAll (s : Server ProtoID Val ω) :
    List (ServiceDescription ProtoID Val ω) → Server ProtoID Val ω
  | [] => s
  | sd :: rest => registerAll (s.RegisterService sd).2 rest

end registry

section dispatch

variable {ProtoID Val ω : Type} [DecidableEq ProtoID] [ToString ProtoID]

/-- What `handleConnection` does that is visible outside it, in program order:
the calls it makes on the connection, the codec, the handlers and the logger,
each with its arguments and with what the call returned. -/
inductive Event (ProtoID Val ω : Type) where
  | read (res : Except String (Int × Frame))
  | decode (request : Frame) (res : Except String (ProtoID × ProtoID × Val))
  | invoke (handler : Handler Val ω) (data : Val) (res : Except String Val)
  | encode (srv me : ProtoID) (res : Val) (out : Except String Frame)
  | write (messageType : Int) (data : Frame) (err : Option String)
  | log (err : String)
  | close

/-- How one pass through the body of the `for` loop ends: `next` when it
reaches `continue` or the end of the body, `ret` when it reaches `return`. -/
inductive Flow where
  | next
  | ret
  deriving DecidableEq

/-- The outcome of one pass through the loop body. -/
structure Step (ProtoID Val ω : Type) where
  events : List (Event ProtoID Val ω)
  flow : Flow
  server : Server ProtoID Val ω
  world : ω

/-- The block that ends every branch of the loop body after a successful read:
```
err = conn.WriteMessage(messageType, data)
if err != nil { s.logger.Log("err", err); return }
continue
```
(the last branch falls off the end of the body instead of `continue`).
`pre` holds the events of this pass so far. -/
def writeReply (conn : Conn ω) (s : Server ProtoID Val ω) (messageType : Int) (data : Frame)
    (pre : List (Event ProtoID Val ω)) (w : ω) : Step ProtoID Val ω :=
  match conn.WriteMessage messageType data w with
  | (some err, w') =>
    ⟨pre ++ [.write messageType data (some err), .log err], .ret, s, s.logger.Log "err" err w'⟩
  | (none, w') => ⟨pre ++ [.write messageType data none], .next, s, w'⟩

/-- One pass through the body of the `for` loop of `handleConnection`. -/
def iteration (conn : Conn ω) (s : Server ProtoID Val ω) (w : ω) : Step ProtoID Val ω :=
  match conn.ReadMessage w with
  | (.error e, w1) => ⟨[.read (.error e)], .ret, s, w1⟩
  | (.ok (messageType, request), w1) =>
    let e1 : List (Event ProtoID Val ω) := [.read (.ok (messageType, request))]
    match s.protocolHandler.Decode request w1 with
    | (.error err, w2) =>
      writeReply conn s messageType (bytes err) (e1 ++ [.decode request (.error err)]) w2
    | (.ok (srv, me, data), w2) =>
      let e2 := e1 ++ [.decode request (.ok (srv, me, data))]
      match s.GetService srv with
      | (.error err, s1) => writeReply conn s1 messageType (bytes err) e2 w2
      | (.ok service, s1) =>
        match service.GetEndpointHandler me with
        | .error err => writeReply conn s1 messageType (bytes err) e2 w2
        | .ok handler =>
          match handler data w2 with
          | (.error err, w3) =>
            writeReply conn s1 messageType (bytes err)
              (e2 ++ [.invoke handler data (.error err)]) w3
          | (.ok res, w3) =>
            let e3 := e2 ++ [.invoke handler data (.ok res)]
            match s1.protocolHandler.Encode srv me res w3 with
            | (.error err, w4) =>
              writeReply conn s1 messageType (bytes err)
                (e3 ++ [.encode srv me res (.error err)]) w4
            | (.ok response, w4) =>
              writeReply conn s1 messageType response
                (e3 ++ [.encode srv me res (.ok response)]) w4

/-- The state of a run of `handleConnection`: the events so far, whether the
function has returned, and the server and the world at that point. -/
structure Run (ProtoID Val ω : Type) where
  events : List (Event ProtoID Val ω)
  returned : Bool
  server : Server ProtoID Val ω
  world : ω

/-- The method `handleConnection`, run for at most `fuel` passes through its `for` loop.
With no fuel left the loop is still running (`returned = false`).  A pass that
reaches `return` runs the deferred `conn.Close()`. -/
def handleConnection (conn : Conn ω) : Nat → Server ProtoID Val ω → ω → Run ProtoID Val ω
  | 0, s, w => ⟨[], false, s, w⟩
  | fuel + 1, s, w =>
    let st := iteration conn s w
    match st.flow with
    | .ret => ⟨st.events ++ [.close], true, st.server, conn.Close st.world⟩
    | .next =>
      let r := handleConnection conn fuel st.server st.world
      ⟨st.events ++ r.events, r.returned, r.server, r.world⟩

/-- The reply to a request frame: what the loop body computes between the read
and the write (decoding, routing, invoking, encoding), namely the events of
those calls, the frame that is then written, and the server and world
afterwards. -/
def respond (s : Server ProtoID Val ω) (request : Frame) (w : ω) :
    List (Event ProtoID Val ω) × Frame × Server ProtoID Val ω × ω :=
  match s.protocolHandler.Decode request w with
  | (.error err, w2) => ([.decode request (.error err)], bytes err, s, w2)
  | (.ok (srv, me, data), w2) =>
    let e2 : List (Event ProtoID Val ω) := [.decode request (.ok (srv, me, data))]
    match s.GetService srv with
    | (.error err, s1) => (e2, bytes err, s1, w2)
    | (.ok service, s1) =>
      match service.GetEndpointHandler me with
      | .error err => (e2, bytes err, s1, w2)
      | .ok handler =>
        match handler data w2 with
        | (.error err, w3) => (e2 ++ [.invoke handler data (.error err)], bytes err, s1, w3)
        | (.ok res, w3) =>
          let e3 := e2 ++ [.invoke handler data (.ok res)]
          match s1.protocolHandler.Encode srv me res w3 with
          | (.error err, w4) => (e3 ++ [.encode srv me res (.error err)], bytes err, s1, w4)
          | (.ok response, w4) => (e3 ++ [.encode srv me res (.ok response)], response, s1, w4)

/-- A completed request/response exchange: a frame that `ReadMessage` returned,
with the server and the world in which its reply is computed. -/
structure Exchange (ProtoID Val ω : Type) where
  messageType : Int
  request : Frame
  server : Server ProtoID Val ω
  world : ω

/-- The reply to the frame of an exchange. -/
def Exchange.reply (x : Exchange ProtoID Val ω) : Frame :=
  (respond x.server x.request x.world).2.1

/-- The events of a completed exchange: the read of the frame, the computation
of its reply, the successful write of the reply. -/
def Exchange.events (x : Exchange ProtoID Val ω) : List (Event ProtoID Val ω) :=
  .read (.ok (x.messageType, x.request)) ::
    ((respond x.server x.request x.world).1 ++ [.write x.messageType x.reply none])

/-- A call of `ReadMessage` or `WriteMessage`. -/
def Event.isTransport : Event ProtoID Val ω → Bool
  | .read _ => true
  | .write _ _ _ => true
  | _ => false

/-- A call of `WriteMessage`. -/
def Event.isWrite : Event ProtoID Val ω → Bool
  | .write _ _ _ => true
  | _ => false

/-- A call of `ReadMessage`. -/
def Event.isRead : Event ProtoID Val ω → Bool
  | .read _ => true
  | _ => false

/-- A call of `ReadMessage` or `WriteMessage` that returned an error. -/
def Event.isTransportFailure : Event ProtoID Val ω → Bool
  | .read (.error _) => true
  | .write _ _ (some _) => true
  | _ => false

/-- A call of a handler. -/
def Event.isInvoke : Event ProtoID Val ω → Bool
  | .invoke _ _ _ => true
  | _ => false

/-- A call of `Encode`. -/
def Event.isEncode : Event ProtoID Val ω → Bool
  | .encode _ _ _ _ => true
  | _ => false

/-- A call of `conn.Close`. -/
def Event.isClose : Event ProtoID Val ω → Bool
  | .close => true
  | _ => false

/-- The frames handed to `WriteMessage`, in order, with their message type. -/
def writes : List (Event ProtoID Val ω) → List (Int × Frame)
  | [] => []
  | .write mt d _ :: rest => (mt, d) :: writes rest
  | _ :: rest => writes rest

/-- The frames that `ReadMessage` returned, in order, with their message type. -/
def reads : List (Event ProtoID Val ω) → List (Int × Frame)
  | [] => []
  | .read (.ok x) :: rest => x :: reads rest
  | _ :: rest => reads rest

end dispatch

/-! ### A concrete connection, codec and service

Identifiers are natural numbers and values are byte strings.  A request frame
is `srv :: me :: payload`.  Service `1` has an echoing method `1` and a method
`2` that always fails. -/

/-- The world of the example: the frames still to arrive, the frames written,
the log, how often `Close` was called, how often a handler ran, and how many
more writes the connection accepts. -/
structure DemoWorld where
  inbox : List (Int × Frame)
  outbox : List (Int × Frame)
  logged : List String
  closed : Nat
  handled : Nat
  writable : Nat
  deriving DecidableEq, Repr

/-- A connection that delivers the inbox and then fails with `EOF`, and that
accepts `writable` more writes. -/
def demoConn : Conn DemoWorld where
  ReadMessage w :=
    match w.inbox with
    | [] => (.error "EOF", w)
    | m :: rest => (.ok m, { w with inbox := rest })
  WriteMessage mt d w :=
    match w.writable with
    | 0 => (some "broken pipe", w)
    | k + 1 => (none, { w with outbox := w.outbox ++ [(mt, d)], writable := k })
  Close w := { w with closed := w.closed + 1 }

/-- A codec for frames `srv :: me :: payload`; it refuses to encode an empty
result. -/
def demoCodec : ProtocolHandler Nat Frame DemoWorld where
  Decode frame w :=
    match frame with
    | a :: b :: rest => (.ok (a.toNat, b.toNat, rest), w)
    | _ => (.error "short frame", w)
  Encode srv me res w :=
    match res with
    | [] => (.error "empty result", w)
    | _ => (.ok (UInt8.ofNat srv :: UInt8.ofNat me :: res), w)

/-- A logger that appends the message to the log. -/
def demoLogger : Logger DemoWorld where
  Log _ msg w := { w with logged := w.logged ++ [msg] }

/-- The echoing handler. -/
def demoEcho : Handler Frame DemoWorld :=
  fun data w => (.ok data, { w with handled := w.handled + 1 })

/-- The failing handler. -/
def demoFail : Handler Frame DemoWorld :=
  fun _ w => (.error "boom", { w with handled := w.handled + 1 })

/-- Service `1`. -/
def demoService : ServiceDescription Nat Frame DemoWorld where
  protocolName := 1
  GetEndpointHandler me :=
    match me with
    | 1 => .ok demoEcho
    | 2 => .ok demoFail
    | _ => .error "Endpoint does not exist"

/-- A server with service `1` registered. -/
def demoServer : Server Nat Frame DemoWorld :=
  ((NewServer demoCodec demoLogger).RegisterService demoService).2

/-- A fresh world with the given frames about to arrive. -/
def demoWorld (inbox : List (Int × Frame)) : DemoWorld :=
  { inbox := inbox, outbox := [], logged := [], closed := 0, handled := 0, writable := 16 }

end websocket

/-! ## pkg/customercontainer -/

namespace customercontainer

/-- The domain `CreateContainerResponse`, as far as the encoder reads it.  The
types of `ID` and `Name` are declared outside `transport_grpc.go`, so they are
parameters; `Error` is a Go `error`. -/
structure CreateContainerResponse (ι ν : Type) where
  ID : ι
  Name : ν
  Error : Option String

/-- The domain `CreateDockerImageResponse`, as far as the encoder reads it. -/
structure CreateDockerImageResponse (ι : Type) where
  ID : ι
  Error : Option String

/-- The message `pb.CreateContainerResponse`: the fields the encoder sets. -/
structure pb.CreateContainerResponse (ι ν : Type) where
  ID : ι
  Name : ν
  Error : String

/-- The message `pb.CreateDockerImageResponse`: the fields the encoder sets. -/
structure pb.CreateDockerImageResponse (ι : Type) where
  ID : ι
  Error : String

/-- The encoder `EncodeGRPCCreateContainerResponse`.  The returned error is always `nil`. -/
def EncodeGRPCCreateContainerResponse {ι ν : Type} (response : CreateContainerResponse ι ν) :
    Except String (pb.CreateContainerResponse ι ν) :=
  let res := response
  let gRPCRes : pb.CreateContainerResponse ι ν := { ID := res.ID, Name := res.Name, Error := "" }
  match res.Error with
  | some err => .ok { gRPCRes with Error := err }
  | none => .ok gRPCRes

/-- The encoder `EncodeGRPCCreateDockerImageResponse`.  `&pb.CreateDockerImageResponse{}`
holds the zero values (`default` for `ID`); both fields are assigned inside the
`if res.Error != nil` block. -/
def EncodeGRPCCreateDockerImageResponse {ι : Type} [Inhabited ι]
    (response : CreateDockerImageResponse ι) : Except String (pb.CreateDockerImageResponse ι) :=
  let res := response
  let gRPCRes : pb.CreateDockerImageResponse ι := { ID := default, Error := "" }
  match res.Error with
  | some err => .ok { gRPCRes with Error := err, ID := res.ID }
  | none => .ok gRPCRes

end customercontainer

/-! ## pkg/testutils -/

namespace testutils

/-- A struct type as `reflect` sees it: its name and the names of its fields. -/
structure StructType where
  name : String
  fields : List String
  deriving DecidableEq, Repr

/-- A `reflect.Type`: a struct type, a pointer type, or some other type. -/
inductive GoType where
  | struct (s : StructType)
  | ptr (elem : GoType)
  | basic (name : String)
  deriving DecidableEq, Repr

/-- The errors `ErrTypeMismatch` and `ErrNotFound` of the package. -/
inductive Error where
  | ErrTypeMismatch
  | ErrNotFound
  deriving DecidableEq, Repr

/-- A row as it is handed to `insert`: an `interface{}` that holds a non-nil
pointer, given by the type it points to and its address. -/
structure Row where
  elem : GoType
  addr : Nat
  deriving DecidableEq, Repr

/-- The memory the rows point to: the value of the `ID` field of the struct at
each address.  The field is taken to be of type `uint`, the only type for which
`idField.Set(reflect.ValueOf(t.count))` does not panic.  An address stands for
the identity of the struct pointed to. -/
abbrev Heap := Nat → Nat

/-- The `table` struct.  `ref` is a struct type (`newTable` calls
`ref.FieldByName`). -/
structure table where
  Name : String
  rows : List Row
  ref : StructType
  idx : Bool
  count : Nat

/-- The method `typeCheck`, on a pointer row; `reflect.TypeOf(i)` is `ptr i.elem`. -/
def table.typeCheck (t : table) (i : Row) : Option Error :=
  let typ := GoType.ptr i.elem
  if typ ≠ GoType.ptr (.struct t.ref) ∧ typ ≠ GoType.struct t.ref then some .ErrTypeMismatch
  else none

/-- The method `insert`: the returned error, the table and the memory afterwards.  `bits`
is the width of `uint` (32 or 64), so `t.count++` wraps at `2 ^ bits`. -/
def table.insert (bits : Nat) (t : table) (h : Heap) (row : Row) : Option Error × table × Heap :=
  match t.typeCheck row with
  | some err => (some err, t, h)
  | none =>
    let count := (t.count + 1) % 2 ^ bits
    let h' : Heap := if t.idx then fun a => if a = row.addr then count else h a else h
    (none, { t with count := count, rows := t.rows ++ [row] }, h')

/-- The loop `for i, row := range t.rows` of `delete`: the index of the first
row whose `ID` is `id`. -/
def firstWithID (h : Heap) (id : Nat) : List Row → Option Nat
  | [] => none
  | row :: rest => if h row.addr = id then some 0 else (firstWithID h id rest).map (· + 1)

/-- The method `delete`: the returned error and the table afterwards;
`append(t.rows[:i], t.rows[i+1:]...)` is `take i ++ drop (i + 1)`. -/
def table.delete (t : table) (h : Heap) (id : Nat) : Option Error × table :=
  match firstWithID h id t.rows with
  | some i => (none, { t with rows := t.rows.take i ++ t.rows.drop (i + 1) })
  | none => (some .ErrNotFound, t)

/-- The function `newTable`: `idx` records whether the row type has a field `ID`. -/
def newTable (ref : StructType) (name : String) : table :=
  { Name := name, rows := [], ref := ref, idx := ref.fields.contains "ID", count := 0 }

/-- A call on a table. -/
inductive Op where
  | insert (row : Row)
  | delete (id : Nat)
  deriving DecidableEq, Repr

/-- A table together with the memory its rows point to. -/
structure State where
  table : table
  heap : Heap

/-- One call: the returned error and the state afterwards. -/
def step (bits : Nat) (st : State) : Op → Option Error × State
  | .insert row =>
    ((st.table.insert bits st.heap row).1,
      ⟨(st.table.insert bits st.heap row).2.1, (st.table.insert bits st.heap row).2.2⟩)
  | .delete id => ((st.table.delete st.heap id).1, ⟨(st.table.delete st.heap id).2, st.heap⟩)

/-- A sequence of calls: the returned errors, in order, and the final state. -/
def run (bits : Nat) : State → List Op → List (Option Error) × State
  | st, [] => ([], st)
  | st, op :: ops =>
    ((step bits st op).1 :: (run bits (step bits st op).2 ops).1,
      (run bits (step bits st op).2 ops).2)

/-- The number of `insert` calls that returned no error, given the calls and
what they returned. -/
def okInserts : List Op → List (Option Error) → Nat
  | .insert _ :: ops, none :: res => okInserts ops res + 1
  | _ :: ops, _ :: res => okInserts ops res
  | _, _ => 0

/-- The addresses of the rows handed to `insert`, in order. -/
def insertedAddrs : List Op → List Nat
  | [] => []
  | .insert row :: ops => row.addr :: insertedAddrs ops
  | .delete _ :: ops => insertedAddrs ops

/-- The `ID`s of the rows of the table, in row order. -/
def State.ids (st : State) : List Nat := st.table.rows.map (fun r => st.heap r.addr)

/-- An example row type with an `ID` field. -/
def demoRef : StructType := ⟨"Customer", ["ID", "Name"]⟩

/-- The rounds `0 .. n - 1` of inserting a fresh row and deleting it again. -/
def churn : Nat → List Op
  | 0 => []
  | n + 1 => churn n ++ [.insert ⟨.struct demoRef, n⟩, .delete ((n + 1) % 2 ^ 64)]

end testutils

/-! ## Theorems: the service registry -/

namespace websocket

section registry

variable {ProtoID Val ω : Type} [DecidableEq ProtoID] [ToString ProtoID]

theorem services_registerAll (sds : List (ServiceDescription ProtoID Val ω))
    (s : Server ProtoID Val ω) (id : ProtoID) :
    (registerAll s sds).services id =
      match s.services id with
      | some sd => some sd
      | none => sds.find? (fun sd => decide (sd.protocolName = id)) := by
  induction sds generalizing s with
  | nil => cases h : s.services id <;> simp [registerAll, h]
  | cons sd rest ih =>
    rw [registerAll, ih]
    by_cases hk : sd.protocolName = id
    · subst hk
      cases h : s.services sd.protocolName <;>
        simp [Server.RegisterService, h, List.find?]
    · have hk' : ¬ id = sd.protocolName := fun h => hk h.symm
      cases h : s.services sd.protocolName <;> cases h2 : s.services id <;>
        simp [Server.RegisterService, h, h2, List.find?, hk, hk']

/-- C6. Registering a description whose identifier is already in the registry
returns the "already exists" error and leaves the server as it was: `GetService`
for that identifier still returns the description registered first, and every
identifier resolves as before. -/
theorem RegisterService_duplicate (s : Server ProtoID Val ω)
    (sd orig : ServiceDescription ProtoID Val ω)
    (h : s.services sd.protocolName = some orig) :
    (s.RegisterService sd).1 = some (errAlreadyExists sd.protocolName) ∧
    (s.RegisterService sd).2 = s ∧
    ((s.RegisterService sd).2.GetService sd.protocolName).1 = .ok orig ∧
    ∀ id, ((s.RegisterService sd).2.GetService id).1 = (s.GetService id).1 := by
  have hr : s.RegisterService sd = (some (errAlreadyExists sd.protocolName), s) := by
    unfold Server.RegisterService
    rw [h]
  rw [hr]
  refine ⟨rfl, rfl, ?_, fun _ => rfl⟩
  simp only [Server.GetService, h]

/-- C7. Registering a description whose identifier is not in the registry
returns no error; afterwards `GetService` for that identifier returns exactly
that description, every other identifier resolves as before, and the codec and
the logger of the server are untouched. -/
theorem RegisterService_fresh (s : Server ProtoID Val ω) (sd : ServiceDescription ProtoID Val ω)
    (h : s.services sd.protocolName = none) :
    (s.RegisterService sd).1 = none ∧
    ((s.RegisterService sd).2.GetService sd.protocolName).1 = .ok sd ∧
    (∀ id, id ≠ sd.protocolName →
      ((s.RegisterService sd).2.GetService id).1 = (s.GetService id).1) ∧
    (s.RegisterService sd).2.protocolHandler = s.protocolHandler ∧
    (s.RegisterService sd).2.logger = s.logger := by
  have hr : s.RegisterService sd =
      (none, { s with
        services := fun k => if k = sd.protocolName then some sd else s.services k }) := by
    unfold Server.RegisterService
    rw [h]
  rw [hr]
  refine ⟨rfl, ?_, ?_, rfl, rfl⟩
  · simp [Server.GetService]
  · intro id hid
    simp only [Server.GetService, hid, if_false]
    cases s.services id <;> rfl

/-- C8. On a server made by `NewServer` and then any sequence `sds` of
`RegisterService` calls, `GetService id` fails with the "does not exists" error
exactly when no description in `sds` has identifier `id`, and otherwise returns
the first description in `sds` with that identifier; and `GetService` leaves
the server as it was. -/
theorem GetService_after_registrations (ph : ProtocolHandler ProtoID Val ω) (logger : Logger ω)
    (sds : List (ServiceDescription ProtoID Val ω)) (id : ProtoID) :
    (((registerAll (NewServer ph logger) sds).GetService id).1 = .error (errDoesNotExist id) ↔
      ∀ sd ∈ sds, sd.protocolName ≠ id) ∧
    ((registerAll (NewServer ph logger) sds).GetService id).1 =
      (match sds.find? (fun sd => decide (sd.protocolName = id)) with
        | some sd => .ok sd
        | none => .error (errDoesNotExist id)) ∧
    ((registerAll (NewServer ph logger) sds).GetService id).2 =
      registerAll (NewServer ph logger) sds := by
  have hs := services_registerAll sds (NewServer ph logger) id
  simp only [NewServer] at hs
  have h2 : ((registerAll (NewServer ph logger) sds).GetService id).1 =
      (match sds.find? (fun sd => decide (sd.protocolName = id)) with
        | some sd => .ok sd
        | none => .error (errDoesNotExist id)) := by
    unfold Server.GetService
    simp only [NewServer]
    rw [hs]
    cases sds.find? (fun sd => decide (sd.protocolName = id)) <;> rfl
  refine ⟨?_, h2, ?_⟩
  · rw [h2]
    cases hf : sds.find? (fun sd => decide (sd.protocolName = id)) with
    | none =>
      simp only [true_iff]
      intro sd hsd
      have := List.find?_eq_none.1 hf sd hsd
      simpa using this
    | some sd =>
      simp only [reduceCtorEq, false_iff, not_forall]
      have hm := List.mem_of_find?_eq_some hf
      have hp := List.find?_some hf
      exact ⟨sd, hm, by simpa using hp⟩
  · unfold Server.GetService
    cases (registerAll (NewServer ph logger) sds).services id <;> rfl

end registry

/-- A second description with identifier `1` is refused by the example server. -/
theorem RegisterService_duplicate_witness :
    (demoServer.RegisterService ⟨1, fun _ => .error "none"⟩).1 =
        some (errAlreadyExists (1 : Nat)) ∧
    (demoServer.RegisterService ⟨1, fun _ => .error "none"⟩).2 = demoServer ∧
    ((demoServer.RegisterService ⟨1, fun _ => .error "none"⟩).2.GetService 1).1 =
        .ok demoService ∧
    ∀ id, ((demoServer.RegisterService ⟨1, fun _ => .error "none"⟩).2.GetService id).1 =
        (demoServer.GetService id).1 :=
  RegisterService_duplicate demoServer ⟨1, fun _ => .error "none"⟩ demoService rfl

/-- The example service is accepted by a new server. -/
theorem RegisterService_fresh_witness :
    ((NewServer demoCodec demoLogger).RegisterService demoService).1 = none ∧
    (((NewServer demoCodec demoLogger).RegisterService demoService).2.GetService 1).1 =
        .ok demoService ∧
    (∀ id, id ≠ 1 →
      (((NewServer demoCodec demoLogger).RegisterService demoService).2.GetService id).1 =
        ((NewServer demoCodec demoLogger).GetService id).1) ∧
    ((NewServer demoCodec demoLogger).RegisterService demoService).2.protocolHandler =
        demoCodec ∧
    ((NewServer demoCodec demoLogger).RegisterService demoService).2.logger = demoLogger :=
  RegisterService_fresh (NewServer demoCodec demoLogger) demoService rfl

end websocket

/-! ## Theorems: the dispatch loop -/

namespace websocket

section dispatch

variable {ProtoID Val ω : Type} [ToString ProtoID]

theorem GetService_snd (s : Server ProtoID Val ω) (name : ProtoID) :
    (s.GetService name).2 = s := by
  unfold Server.GetService
  cases s.services name <;> rfl

/-- The loop body is: read, compute the reply, write it. -/
theorem iteration_eq (conn : Conn ω) (s : Server ProtoID Val ω) (w : ω) :
    iteration conn s w =
      match conn.ReadMessage w with
      | (.error e, w1) => ⟨[.read (.error e)], .ret, s, w1⟩
      | (.ok (messageType, request), w1) =>
        writeReply conn (respond s request w1).2.2.1 messageType (respond s request w1).2.1
          (.read (.ok (messageType, request)) :: (respond s request w1).1)
          (respond s request w1).2.2.2 := by
  unfold iteration respond
  rcases conn.ReadMessage w with ⟨_ | ⟨mt, req⟩, w1⟩
  · rfl
  · simp only
    rcases s.protocolHandler.Decode req w1 with ⟨_ | ⟨srv, me, data⟩, w2⟩
    · rfl
    · simp only
      rcases s.GetService srv with ⟨_ | service, s1⟩
      · rfl
      · simp only
        rcases service.GetEndpointHandler me with _ | handler
        · rfl
        · simp only
          rcases handler data w2 with ⟨_ | res, w3⟩
          · rfl
          · simp only
            rcases s1.protocolHandler.Encode srv me res w3 with ⟨_ | response, w4⟩ <;> rfl

theorem respond_server (s : Server ProtoID Val ω) (request : Frame) (w : ω) :
    (respond s request w).2.2.1 = s := by
  unfold respond
  rcases s.protocolHandler.Decode request w with ⟨_ | ⟨srv, me, data⟩, w2⟩
  · rfl
  · simp only
    have hs := GetService_snd s srv
    rcases hg : s.GetService srv with ⟨_ | service, s1⟩
    · rw [hg] at hs; simpa using hs
    · rw [hg] at hs
      simp only at hs
      subst hs
      simp only
      rcases service.GetEndpointHandler me with _ | handler
      · rfl
      · simp only
        rcases handler data w2 with ⟨_ | res, w3⟩
        · rfl
        · simp only
          rcases s1.protocolHandler.Encode srv me res w3 with ⟨_ | response, w4⟩ <;> rfl

theorem respond_no_transport (s : Server ProtoID Val ω) (request : Frame) (w : ω) :
    ∀ e ∈ (respond s request w).1, e.isTransport = false ∧ e.isClose = false := by
  unfold respond
  rcases s.protocolHandler.Decode request w with ⟨_ | ⟨srv, me, data⟩, w2⟩
  · simp [Event.isTransport, Event.isClose]
  · simp only
    rcases s.GetService srv with ⟨_ | service, s1⟩
    · simp [Event.isTransport, Event.isClose]
    · simp only
      rcases service.GetEndpointHandler me with _ | handler
      · simp [Event.isTransport, Event.isClose]
      · simp only
        rcases handler data w2 with ⟨_ | res, w3⟩
        · simp [Event.isTransport, Event.isClose]
        · simp only
          rcases s1.protocolHandler.Encode srv me res w3 with ⟨_ | response, w4⟩ <;>
            simp [Event.isTransport, Event.isClose]

omit [ToString ProtoID] in
theorem writeReply_server (conn : Conn ω) (s : Server ProtoID Val ω) (mt : Int) (d : Frame)
    (pre : List (Event ProtoID Val ω)) (w : ω) : (writeReply conn s mt d pre w).server = s := by
  unfold writeReply
  rcases conn.WriteMessage mt d w with ⟨_ | e, w'⟩ <;> rfl

theorem iteration_server (conn : Conn ω) (s : Server ProtoID Val ω) (w : ω) :
    (iteration conn s w).server = s := by
  rw [iteration_eq]
  rcases conn.ReadMessage w with ⟨_ | ⟨mt, req⟩, w1⟩
  · rfl
  · simp only [writeReply_server, respond_server]

theorem handleConnection_server (conn : Conn ω) (n : Nat) (s : Server ProtoID Val ω) (w : ω) :
    (handleConnection conn n s w).server = s := by
  induction n generalizing s w with
  | zero => rfl
  | succ n ih =>
    have hs := iteration_server conn s w
    unfold handleConnection
    simp only
    cases hf : (iteration conn s w).flow
    · simp only [ih, hs]
    · simp only [hs]

/-- The three ways a pass through the loop body can go. -/
theorem iteration_cases (conn : Conn ω) (s : Server ProtoID Val ω) (w : ω) :
    (∃ e, (conn.ReadMessage w).1 = .error e ∧
      iteration conn s w = ⟨[.read (.error e)], .ret, s, (conn.ReadMessage w).2⟩) ∨
    (∃ mt req, (conn.ReadMessage w).1 = .ok (mt, req) ∧
      ((conn.WriteMessage mt (respond s req (conn.ReadMessage w).2).2.1
          (respond s req (conn.ReadMessage w).2).2.2.2).1 = none ∧
        iteration conn s w =
          ⟨.read (.ok (mt, req)) :: ((respond s req (conn.ReadMessage w).2).1 ++
              [.write mt (respond s req (conn.ReadMessage w).2).2.1 none]),
            .next, s,
            (conn.WriteMessage mt (respond s req (conn.ReadMessage w).2).2.1
              (respond s req (conn.ReadMessage w).2).2.2.2).2⟩ ∨
       ∃ e, (conn.WriteMessage mt (respond s req (conn.ReadMessage w).2).2.1
          (respond s req (conn.ReadMessage w).2).2.2.2).1 = some e ∧
        iteration conn s w =
          ⟨.read (.ok (mt, req)) :: ((respond s req (conn.ReadMessage w).2).1 ++
              [.write mt (respond s req (conn.ReadMessage w).2).2.1 (some e), .log e]),
            .ret, s,
            s.logger.Log "err" e
              (conn.WriteMessage mt (respond s req (conn.ReadMessage w).2).2.1
                (respond s req (conn.ReadMessage w).2).2.2.2).2⟩)) := by
  rw [iteration_eq]
  rcases conn.ReadMessage w with ⟨e | ⟨mt, req⟩, w1⟩
  · exact Or.inl ⟨e, rfl, rfl⟩
  · refine Or.inr ⟨mt, req, rfl, ?_⟩
    simp only [respond_server]
    unfold writeReply
    rcases conn.WriteMessage mt (respond s req w1).2.1 (respond s req w1).2.2.2 with ⟨_ | e, w'⟩
    · exact Or.inl ⟨rfl, rfl⟩
    · exact Or.inr ⟨e, rfl, rfl⟩

theorem handleConnection_succ_ret (conn : Conn ω) (n : Nat) (s : Server ProtoID Val ω) (w : ω)
    (h : (iteration conn s w).flow = .ret) :
    handleConnection conn (n + 1) s w =
      ⟨(iteration conn s w).events ++ [.close], true, (iteration conn s w).server,
        conn.Close (iteration conn s w).world⟩ := by
  rw [handleConnection]
  simp only [h]

theorem handleConnection_succ_next (conn : Conn ω) (n : Nat) (s : Server ProtoID Val ω) (w : ω)
    (h : (iteration conn s w).flow = .next) :
    handleConnection conn (n + 1) s w =
      ⟨(iteration conn s w).events ++
          (handleConnection conn n (iteration conn s w).server (iteration conn s w).world).events,
        (handleConnection conn n (iteration conn s w).server (iteration conn s w).world).returned,
        (handleConnection conn n (iteration conn s w).server (iteration conn s w).world).server,
        (handleConnection conn n (iteration conn s w).server (iteration conn s w).world).world⟩ := by
  rw [handleConnection]
  simp only [h]

/-- Running `k` passes without returning and then `m` more is running `k + m`. -/
theorem handleConnection_add (conn : Conn ω) (k m : Nat) (s : Server ProtoID Val ω) (w : ω)
    (h : (handleConnection conn k s w).returned = false) :
    handleConnection conn (k + m) s w =
      ⟨(handleConnection conn k s w).events ++
          (handleConnection conn m (handleConnection conn k s w).server
            (handleConnection conn k s w).world).events,
        (handleConnection conn m (handleConnection conn k s w).server
            (handleConnection conn k s w).world).returned,
        (handleConnection conn m (handleConnection conn k s w).server
            (handleConnection conn k s w).world).server,
        (handleConnection conn m (handleConnection conn k s w).server
            (handleConnection conn k s w).world).world⟩ := by
  induction k generalizing s w with
  | zero => simp [handleConnection]
  | succ k ih =>
    cases hf : (iteration conn s w).flow
    · rw [handleConnection_succ_next conn k s w hf] at h ⊢
      rw [show k + 1 + m = (k + m) + 1 by omega, handleConnection_succ_next conn (k + m) s w hf]
      simp only at h
      rw [ih _ _ h]
      simp only [List.append_assoc]
    · rw [handleConnection_succ_ret conn k s w hf] at h
      simp at h

/-- Once `handleConnection` has returned, more fuel changes nothing. -/
theorem handleConnection_stable (conn : Conn ω) (n m : Nat) (s : Server ProtoID Val ω) (w : ω)
    (h : (handleConnection conn n s w).returned = true) :
    handleConnection conn (n + m) s w = handleConnection conn n s w := by
  induction n generalizing s w with
  | zero => simp [handleConnection] at h
  | succ n ih =>
    cases hf : (iteration conn s w).flow
    · rw [handleConnection_succ_next conn n s w hf] at h ⊢
      rw [show n + 1 + m = (n + m) + 1 by omega, handleConnection_succ_next conn (n + m) s w hf]
      simp only at h
      rw [ih _ _ h]
    · rw [show n + 1 + m = (n + m) + 1 by omega, handleConnection_succ_ret conn n s w hf,
        handleConnection_succ_ret conn (n + m) s w hf]


omit [ToString ProtoID] in
theorem isTransport_of_failure (e : Event ProtoID Val ω) (h : e.isTransportFailure = true) :
    e.isTransport = true := by
  cases e <;> simp_all [Event.isTransportFailure, Event.isTransport]

theorem respond_quiet (s : Server ProtoID Val ω) (request : Frame) (w : ω) :
    ∀ e ∈ (respond s request w).1,
      e.isTransport = false ∧ e.isTransportFailure = false ∧ e.isClose = false := by
  intro e he
  have h1 := respond_no_transport s request w e he
  refine ⟨h1.1, ?_, h1.2⟩
  cases hf : e.isTransportFailure
  · rfl
  · rw [isTransport_of_failure e hf] at h1; exact absurd h1.1 (by simp)

omit [ToString ProtoID] in
theorem pairwise_of_quiet (l : List (Event ProtoID Val ω))
    (h : ∀ e ∈ l, e.isTransportFailure = false) :
    l.Pairwise (fun a b => a.isTransportFailure = true → b.isTransport = false) := by
  induction l with
  | nil => exact List.Pairwise.nil
  | cons e l ih =>
    rw [List.pairwise_cons]
    refine ⟨fun b _ hf => ?_, ih (fun x hx => h x (List.mem_cons_of_mem _ hx))⟩
    rw [h e (List.mem_cons_self _ _)] at hf
    cases hf

/-- Facts about the events of one pass through the loop body. -/
theorem iteration_events (conn : Conn ω) (s : Server ProtoID Val ω) (w : ω) :
    ((iteration conn s w).flow = .ret ↔
      ∃ e ∈ (iteration conn s w).events, e.isTransportFailure = true) ∧
    (∀ e ∈ (iteration conn s w).events, e.isClose = false) ∧
    (iteration conn s w).events.Pairwise
      (fun a b => a.isTransportFailure = true → b.isTransport = false) := by
  rcases iteration_cases conn s w with ⟨e, -, h⟩ | ⟨mt, req, -, ⟨-, h⟩ | ⟨e, -, h⟩⟩
  · rw [h]
    simp [Event.isTransportFailure, Event.isClose]
  · rw [h]
    have hq := respond_quiet s req (conn.ReadMessage w).2
    refine ⟨?_, ?_, ?_⟩
    · simp only [List.mem_cons, List.mem_append, List.mem_singleton, false_iff, not_exists,
        not_and, reduceCtorEq, List.mem_nil_iff, or_false]
      rintro x (rfl | hx | rfl)
      · simp [Event.isTransportFailure]
      · simp [(hq x hx).2.1]
      · simp [Event.isTransportFailure]
    · rintro x hx
      simp only [List.mem_cons, List.mem_append, List.mem_singleton, List.mem_nil_iff,
        or_false] at hx
      rcases hx with rfl | hx | rfl
      · rfl
      · exact (hq x hx).2.2
      · rfl
    · simp only
      rw [List.pairwise_cons]
      refine ⟨fun b _ hb => by simp [Event.isTransportFailure] at hb, ?_⟩
      rw [List.pairwise_append]
      refine ⟨?_, List.pairwise_singleton _ _, ?_⟩
      · exact pairwise_of_quiet _ (fun a ha => (hq a ha).2.1)
      · intro a ha b _ hf
        simp [(hq a ha).2.1] at hf
  · rw [h]
    have hq := respond_quiet s req (conn.ReadMessage w).2
    refine ⟨?_, ?_, ?_⟩
    · simp only [true_iff]
      exact ⟨.write mt (respond s req (conn.ReadMessage w).2).2.1 (some e), by simp, rfl⟩
    · rintro x hx
      simp only [List.mem_cons, List.mem_append, List.mem_singleton, List.mem_nil_iff,
        or_false] at hx
      rcases hx with rfl | hx | rfl | rfl
      · rfl
      · exact (hq x hx).2.2
      · rfl
      · rfl
    · simp only
      rw [List.pairwise_cons]
      refine ⟨fun b _ hb => by simp [Event.isTransportFailure] at hb, ?_⟩
      rw [List.pairwise_append]
      refine ⟨?_, ?_, ?_⟩
      · exact pairwise_of_quiet _ (fun a ha => (hq a ha).2.1)
      · simp [Event.isTransport]
      · intro a ha b _ hf
        simp [(hq a ha).2.1] at hf


/-- C4. `handleConnection` returns exactly when a transport operation fails: after
any number of passes through the loop it has returned if and only if some
`ReadMessage` or `WriteMessage` call of the run returned an error; no read or
write follows a failed read or write; `Close` has been called once if the
function has returned (as the last thing it did) and not at all otherwise; and
once it has returned, the result no longer depends on the fuel. -/
theorem handleConnection_returns_iff_transport_failure (conn : Conn ω) (n : Nat)
    (s : Server ProtoID Val ω) (w : ω) :
    ((handleConnection conn n s w).returned = true ↔
      ∃ e ∈ (handleConnection conn n s w).events, e.isTransportFailure = true) ∧
    (handleConnection conn n s w).events.Pairwise
      (fun a b => a.isTransportFailure = true → b.isTransport = false) ∧
    (handleConnection conn n s w).events.countP Event.isClose =
      (if (handleConnection conn n s w).returned then 1 else 0) ∧
    ((handleConnection conn n s w).returned = true →
      ∃ init, (handleConnection conn n s w).events = init ++ [.close]) ∧
    (∀ m, (handleConnection conn n s w).returned = true →
      handleConnection conn (n + m) s w = handleConnection conn n s w) := by
  refine ⟨?_, ?_, ?_, ?_, fun m h => handleConnection_stable conn n m s w h⟩
  · induction n generalizing s w with
    | zero => simp [handleConnection]
    | succ n ih =>
      obtain ⟨h1, -, -⟩ := iteration_events conn s w
      cases hf : (iteration conn s w).flow
      · rw [handleConnection_succ_next conn n s w hf]
        simp only [ih, List.mem_append]
        constructor
        · rintro ⟨e, he, hfe⟩
          exact ⟨e, Or.inr he, hfe⟩
        · rintro ⟨e, he | he, hfe⟩
          · have := h1.2 ⟨e, he, hfe⟩
            rw [hf] at this
            exact absurd this (by decide)
          · exact ⟨e, he, hfe⟩
      · rw [handleConnection_succ_ret conn n s w hf]
        simp only [true_iff, List.mem_append]
        obtain ⟨e, he, hfe⟩ := h1.1 hf
        exact ⟨e, Or.inl he, hfe⟩
  · induction n generalizing s w with
    | zero => simp [handleConnection]
    | succ n ih =>
      obtain ⟨h1, -, h3⟩ := iteration_events conn s w
      cases hf : (iteration conn s w).flow
      · rw [handleConnection_succ_next conn n s w hf]
        simp only
        rw [List.pairwise_append]
        refine ⟨h3, ih _ _, ?_⟩
        intro a ha b _ hfa
        have := h1.2 ⟨a, ha, hfa⟩
        rw [hf] at this
        exact absurd this (by decide)
      · rw [handleConnection_succ_ret conn n s w hf]
        simp only
        rw [List.pairwise_append]
        refine ⟨h3, List.pairwise_singleton _ _, ?_⟩
        intro a _ b hb _
        simp only [List.mem_singleton] at hb
        subst hb
        rfl
  · induction n generalizing s w with
    | zero => simp [handleConnection]
    | succ n ih =>
      obtain ⟨-, h2, -⟩ := iteration_events conn s w
      have h0 : (iteration conn s w).events.countP Event.isClose = 0 := by
        rw [List.countP_eq_zero]
        intro a ha
        simp [h2 a ha]
      cases hf : (iteration conn s w).flow
      · rw [handleConnection_succ_next conn n s w hf]
        simp only [List.countP_append, h0, ih, Nat.zero_add]
      · rw [handleConnection_succ_ret conn n s w hf]
        simp [List.countP_append, h0, Event.isClose]
  · induction n generalizing s w with
    | zero => simp [handleConnection]
    | succ n ih =>
      cases hf : (iteration conn s w).flow
      · rw [handleConnection_succ_next conn n s w hf]
        simp only
        intro h
        obtain ⟨init, hi⟩ := ih _ _ h
        exact ⟨(iteration conn s w).events ++ init, by rw [hi, List.append_assoc]⟩
      · rw [handleConnection_succ_ret conn n s w hf]
        exact fun _ => ⟨_, rfl⟩


omit [ToString ProtoID] in
theorem reads_append (l1 l2 : List (Event ProtoID Val ω)) :
    reads (l1 ++ l2) = reads l1 ++ reads l2 := by
  induction l1 with
  | nil => rfl
  | cons e l ih =>
    cases e with
    | read res => cases res <;> simp [reads, ih]
    | _ => simp [reads, ih]

omit [ToString ProtoID] in
theorem writes_append (l1 l2 : List (Event ProtoID Val ω)) :
    writes (l1 ++ l2) = writes l1 ++ writes l2 := by
  induction l1 with
  | nil => rfl
  | cons e l ih => cases e <;> simp [writes, ih]

omit [ToString ProtoID] in
theorem reads_writes_of_no_transport (l : List (Event ProtoID Val ω))
    (h : ∀ e ∈ l, e.isTransport = false) : reads l = [] ∧ writes l = [] := by
  induction l with
  | nil => exact ⟨rfl, rfl⟩
  | cons e l ih =>
    have he := h e (List.mem_cons_self _ _)
    have ih' := ih (fun x hx => h x (List.mem_cons_of_mem _ hx))
    cases e <;> simp_all [reads, writes, Event.isTransport]

theorem reads_exchange (x : Exchange ProtoID Val ω) :
    reads x.events = [(x.messageType, x.request)] := by
  have h := (reads_writes_of_no_transport _
    (fun e he => (respond_no_transport x.server x.request x.world e he).1)).1
  unfold Exchange.events
  simp [reads, reads_append, h]

theorem writes_exchange (x : Exchange ProtoID Val ω) :
    writes x.events = [(x.messageType, x.reply)] := by
  have h := (reads_writes_of_no_transport _
    (fun e he => (respond_no_transport x.server x.request x.world e he).1)).2
  unfold Exchange.events
  simp [writes, writes_append, h]

/-- C5. On one connection, as long as every write succeeds, the run of
`handleConnection` is a sequence of completed exchanges, each one the read of a
frame, the computation of its reply and the write of that reply, followed by
nothing (the loop is still running) or by the failed read that ends it.  So
the frames written are, in number and in order, the replies to the frames read:
the `k`-th frame written is the reply to the `k`-th frame read, and it is
written before the next frame is read. -/
theorem handleConnection_replies_in_order (conn : Conn ω) (n : Nat)
    (s : Server ProtoID Val ω) (w : ω)
    (hw : ∀ mt d err, Event.write mt d (some err) ∉ (handleConnection conn n s w).events) :
    ∃ xs : List (Exchange ProtoID Val ω), ∃ tail : List (Event ProtoID Val ω),
      (handleConnection conn n s w).events = (xs.map Exchange.events).flatten ++ tail ∧
      (tail = [] ∨ ∃ e, tail = [.read (.error e), .close]) ∧
      (∀ x ∈ xs, x.server = s) ∧
      reads (handleConnection conn n s w).events = xs.map (fun x => (x.messageType, x.request)) ∧
      writes (handleConnection conn n s w).events = xs.map (fun x => (x.messageType, x.reply)) ∧
      ((handleConnection conn n s w).returned = false → xs.length = n) := by
  induction n generalizing s w with
  | zero => exact ⟨[], [], by simp [handleConnection, reads, writes]⟩
  | succ n ih =>
    rcases iteration_cases conn s w with ⟨e, -, h⟩ | ⟨mt, req, -, ⟨-, h⟩ | ⟨e, -, h⟩⟩
    · have hf : (iteration conn s w).flow = .ret := by rw [h]
      rw [handleConnection_succ_ret conn n s w hf, h]
      exact ⟨[], [.read (.error e), .close], by simp [reads, writes]⟩
    · have hf : (iteration conn s w).flow = .next := by rw [h]
      rw [handleConnection_succ_next conn n s w hf] at hw ⊢
      have hs : (iteration conn s w).server = s := iteration_server conn s w
      rw [hs] at hw ⊢
      obtain ⟨xs, tail, h1, h2, h3, h4, h5, h6⟩ := ih s (iteration conn s w).world
        (fun mt d err hm => hw mt d err (List.mem_append_right _ hm))
      have hx : (iteration conn s w).events =
          Exchange.events ⟨mt, req, s, (conn.ReadMessage w).2⟩ := by rw [h]; rfl
      refine ⟨⟨mt, req, s, (conn.ReadMessage w).2⟩ :: xs, tail, ?_, h2, ?_, ?_, ?_, ?_⟩
      · simp only [List.map_cons, List.flatten_cons, List.append_assoc, h1, hx]
      · intro x hx'
        rcases List.mem_cons.1 hx' with rfl | hx'
        · rfl
        · exact h3 x hx'
      · simp only [reads_append, hx, reads_exchange, h4, List.map_cons, List.singleton_append]
      · simp only [writes_append, hx, writes_exchange, h5, List.map_cons, List.singleton_append]
      · intro hr
        simp only [List.length_cons, h6 hr]
    · exfalso
      have hf : (iteration conn s w).flow = .ret := by rw [h]
      rw [handleConnection_succ_ret conn n s w hf, h] at hw
      simp only at hw
      exact hw mt (respond s req (conn.ReadMessage w).2).2.1 e (by simp)


theorem handleConnection_zero (conn : Conn ω) (s : Server ProtoID Val ω) (w : ω) :
    handleConnection conn 0 s w = ⟨[], false, s, w⟩ := rfl

/-- A pass through the loop begins with a call of `ReadMessage`. -/
theorem handleConnection_succ_head (conn : Conn ω) (m : Nat) (s : Server ProtoID Val ω) (w : ω) :
    ∃ rest, (handleConnection conn (m + 1) s w).events = .read (conn.ReadMessage w).1 :: rest := by
  have hi : ∃ rest, (iteration conn s w).events = .read (conn.ReadMessage w).1 :: rest := by
    rcases iteration_cases conn s w with ⟨e, hr, h⟩ | ⟨mt, req, hr, ⟨-, h⟩ | ⟨e, -, h⟩⟩ <;>
      exact ⟨_, by rw [h, hr]⟩
  obtain ⟨rest, hi⟩ := hi
  cases hf : (iteration conn s w).flow
  · rw [handleConnection_succ_next conn m s w hf, hi]
    exact ⟨_, rfl⟩
  · rw [handleConnection_succ_ret conn m s w hf, hi]
    exact ⟨_, rfl⟩

/-- The pass that handles the frame read after `k` completed passes: it appends
the read, the computation of the reply and the write of the reply; if the
write fails the function logs and returns, otherwise the loop goes on with the
next read. -/
theorem handleConnection_next_frame (conn : Conn ω) (k : Nat) (s : Server ProtoID Val ω) (w : ω)
    {mt : Int} {req : Frame} {w1 : ω}
    (hk : (handleConnection conn k s w).returned = false)
    (hread : conn.ReadMessage (handleConnection conn k s w).world = (.ok (mt, req), w1)) :
    (handleConnection conn (k + 1) s w).events =
        (handleConnection conn k s w).events ++
          (.read (.ok (mt, req)) :: ((respond s req w1).1 ++
            [.write mt (respond s req w1).2.1
              (conn.WriteMessage mt (respond s req w1).2.1 (respond s req w1).2.2.2).1])) ++
          (match (conn.WriteMessage mt (respond s req w1).2.1 (respond s req w1).2.2.2).1 with
            | some e => [.log e, .close]
            | none => []) ∧
    ((conn.WriteMessage mt (respond s req w1).2.1 (respond s req w1).2.2.2).1 = none →
      (handleConnection conn (k + 1) s w).returned = false ∧
      ∀ m, ∃ rest, (handleConnection conn (k + 1 + (m + 1)) s w).events =
        (handleConnection conn (k + 1) s w).events ++
          .read (conn.ReadMessage
            (conn.WriteMessage mt (respond s req w1).2.1 (respond s req w1).2.2.2).2).1 :: rest) := by
  have hadd := handleConnection_add conn k 1 s w hk
  rw [handleConnection_server] at hadd
  have hr1 : (conn.ReadMessage (handleConnection conn k s w).world).1 = .ok (mt, req) := by
    rw [hread]
  have hr2 : (conn.ReadMessage (handleConnection conn k s w).world).2 = w1 := by rw [hread]
  rcases iteration_cases conn s (handleConnection conn k s w).world with
    ⟨e, hr, -⟩ | ⟨mt', req', hr, hc⟩
  · rw [hr1] at hr; cases hr
  · rw [hr1] at hr
    cases hr
    rw [hr2] at hc
    rcases hc with ⟨hwr, h⟩ | ⟨e, hwr, h⟩
    · have hf : (iteration conn s (handleConnection conn k s w).world).flow = .next := by rw [h]
      have h1 := handleConnection_succ_next conn 0 s (handleConnection conn k s w).world hf
      rw [h] at h1
      simp only [handleConnection_zero, List.append_nil, Nat.zero_add] at h1
      have hrun : handleConnection conn (k + 1) s w =
          ⟨(handleConnection conn k s w).events ++
              (.read (.ok (mt, req)) :: ((respond s req w1).1 ++
                [.write mt (respond s req w1).2.1 none])), false, s,
            (conn.WriteMessage mt (respond s req w1).2.1 (respond s req w1).2.2.2).2⟩ := by
        rw [hadd, h1]
      refine ⟨?_, fun _ => ⟨?_, fun m => ?_⟩⟩
      · rw [hrun, hwr]
        simp
      · rw [hrun]
      · have ha := handleConnection_add conn (k + 1) (m + 1) s w (by rw [hrun])
        obtain ⟨rest, hrest⟩ := handleConnection_succ_head conn m
          (handleConnection conn (k + 1) s w).server (handleConnection conn (k + 1) s w).world
        refine ⟨rest, ?_⟩
        rw [ha]
        simp only
        rw [hrest, hrun]
    · have hf : (iteration conn s (handleConnection conn k s w).world).flow = .ret := by rw [h]
      have h1 := handleConnection_succ_ret conn 0 s (handleConnection conn k s w).world hf
      rw [h] at h1
      simp only [Nat.zero_add] at h1
      refine ⟨?_, fun hn => ?_⟩
      · rw [hadd, h1, hwr]
        simp
      · rw [hwr] at hn; cases hn


/-- C1. The frame read after any number `k` of completed passes, when decoding,
the service lookup, the method lookup (giving handler `h`), the call `h data`
and the encoding of its result all succeed: the pass calls exactly `h`, once,
on exactly the decoded payload `data`, and writes one frame, the frame that
`Encode srv me res` produced (only a failed write adds the log entry and the
deferred `Close`). -/
theorem handleConnection_dispatch (conn : Conn ω) (k : Nat) (s : Server ProtoID Val ω) (w : ω)
    (mt : Int) (request : Frame) (w1 : ω) (srv me : ProtoID) (data : Val) (w2 : ω)
    (service : ServiceDescription ProtoID Val ω) (h : Handler Val ω) (res : Val) (w3 : ω)
    (response : Frame) (w4 : ω)
    (hk : (handleConnection conn k s w).returned = false)
    (hread : conn.ReadMessage (handleConnection conn k s w).world = (.ok (mt, request), w1))
    (hdecode : s.protocolHandler.Decode request w1 = (.ok (srv, me, data), w2))
    (hservice : (s.GetService srv).1 = .ok service)
    (hmethod : service.GetEndpointHandler me = .ok h)
    (hhandler : h data w2 = (.ok res, w3))
    (hencode : s.protocolHandler.Encode srv me res w3 = (.ok response, w4)) :
    (handleConnection conn (k + 1) s w).events =
      (handleConnection conn k s w).events ++
        [.read (.ok (mt, request)), .decode request (.ok (srv, me, data)),
          .invoke h data (.ok res), .encode srv me res (.ok response),
          .write mt response (conn.WriteMessage mt response w4).1] ++
        (match (conn.WriteMessage mt response w4).1 with
          | some e => [.log e, .close]
          | none => []) := by
  have hg : s.GetService srv = (.ok service, s) := Prod.ext hservice (GetService_snd s srv)
  have hresp : respond s request w1 =
      ([.decode request (.ok (srv, me, data)), .invoke h data (.ok res),
        .encode srv me res (.ok response)], response, s, w4) := by
    unfold respond
    simp only [hdecode, hg, hmethod, hhandler, hencode, List.cons_append, List.nil_append]
  have h1 := (handleConnection_next_frame conn k s w hk hread).1
  rw [hresp] at h1
  simpa using h1

/-- C2. The frame read after any number `k` of completed passes, when decoding
fails, or the decoded service is not registered, or the service has no such
method, with error `err`: the pass calls no handler and not `Encode`; it
writes one frame, the bytes of `err`; and if that write succeeds the function
has not returned and the next thing it does is to read the next frame. -/
theorem handleConnection_routing_failure (conn : Conn ω) (k : Nat) (s : Server ProtoID Val ω)
    (w : ω) (mt : Int) (request : Frame) (w1 : ω)
    (dres : Except String (ProtoID × ProtoID × Val)) (w2 : ω) (err : String)
    (hk : (handleConnection conn k s w).returned = false)
    (hread : conn.ReadMessage (handleConnection conn k s w).world = (.ok (mt, request), w1))
    (hdecode : s.protocolHandler.Decode request w1 = (dres, w2))
    (hfail : dres = .error err ∨
      ∃ srv me data, dres = .ok (srv, me, data) ∧
        ((s.GetService srv).1 = .error err ∨
          ∃ service, (s.GetService srv).1 = .ok service ∧
            service.GetEndpointHandler me = .error err)) :
    (handleConnection conn (k + 1) s w).events =
      (handleConnection conn k s w).events ++
        [.read (.ok (mt, request)), .decode request dres,
          .write mt (bytes err) (conn.WriteMessage mt (bytes err) w2).1] ++
        (match (conn.WriteMessage mt (bytes err) w2).1 with
          | some e => [.log e, .close]
          | none => []) ∧
    ((conn.WriteMessage mt (bytes err) w2).1 = none →
      (handleConnection conn (k + 1) s w).returned = false ∧
      ∀ m, ∃ rest, (handleConnection conn (k + 1 + (m + 1)) s w).events =
        (handleConnection conn (k + 1) s w).events ++
          .read (conn.ReadMessage (conn.WriteMessage mt (bytes err) w2).2).1 :: rest) := by
  have hresp : respond s request w1 = ([.decode request dres], bytes err, s, w2) := by
    unfold respond
    rcases hfail with rfl | ⟨srv, me, data, rfl, hs | ⟨service, hs, hm⟩⟩
    · simp only [hdecode]
    · have hg : s.GetService srv = (.error err, s) := Prod.ext hs (GetService_snd s srv)
      simp only [hdecode, hg]
    · have hg : s.GetService srv = (.ok service, s) := Prod.ext hs (GetService_snd s srv)
      simp only [hdecode, hg, hm]
  have h1 := handleConnection_next_frame conn k s w hk hread
  rw [hresp] at h1
  refine ⟨?_, h1.2⟩
  simpa using h1.1

/-- C3, as the code has it.  The frame read after any number `k` of completed
passes, when it is decoded and routed to a handler `h` that returns an error
`err`: `Encode` is not called, and the one frame written in reply is the bytes
of the message of `err`, exactly as for a decoding or routing error. -/
theorem handleConnection_handler_error (conn : Conn ω) (k : Nat) (s : Server ProtoID Val ω)
    (w : ω) (mt : Int) (request : Frame) (w1 : ω) (srv me : ProtoID) (data : Val) (w2 : ω)
    (service : ServiceDescription ProtoID Val ω) (h : Handler Val ω) (err : String) (w3 : ω)
    (hk : (handleConnection conn k s w).returned = false)
    (hread : conn.ReadMessage (handleConnection conn k s w).world = (.ok (mt, request), w1))
    (hdecode : s.protocolHandler.Decode request w1 = (.ok (srv, me, data), w2))
    (hservice : (s.GetService srv).1 = .ok service)
    (hmethod : service.GetEndpointHandler me = .ok h)
    (hhandler : h data w2 = (.error err, w3)) :
    (handleConnection conn (k + 1) s w).events =
      (handleConnection conn k s w).events ++
        [.read (.ok (mt, request)), .decode request (.ok (srv, me, data)),
          .invoke h data (.error err),
          .write mt (bytes err) (conn.WriteMessage mt (bytes err) w3).1] ++
        (match (conn.WriteMessage mt (bytes err) w3).1 with
          | some e => [.log e, .close]
          | none => []) := by
  have hg : s.GetService srv = (.ok service, s) := Prod.ext hservice (GetService_snd s srv)
  have hresp : respond s request w1 =
      ([.decode request (.ok (srv, me, data)), .invoke h data (.error err)],
        bytes err, s, w3) := by
    unfold respond
    simp only [hdecode, hg, hmethod, hhandler, List.cons_append, List.nil_append]
  have h1 := (handleConnection_next_frame conn k s w hk hread).1
  rw [hresp] at h1
  simpa using h1

/-- A successful echo request on the example connection. -/
theorem handleConnection_dispatch_witness :
    (handleConnection demoConn 1 demoServer (demoWorld [(1, [1, 1, 7, 8])])).events =
      [.read (.ok (1, [1, 1, 7, 8])), .decode [1, 1, 7, 8] (.ok (1, 1, [7, 8])),
        .invoke demoEcho [7, 8] (.ok [7, 8]), .encode 1 1 [7, 8] (.ok [1, 1, 7, 8]),
        .write 1 [1, 1, 7, 8] none] :=
  handleConnection_dispatch demoConn 0 demoServer (demoWorld [(1, [1, 1, 7, 8])])
    1 [1, 1, 7, 8] (demoWorld []) 1 1 [7, 8] (demoWorld []) demoService demoEcho [7, 8]
    { demoWorld [] with handled := 1 } [1, 1, 7, 8] { demoWorld [] with handled := 1 }
    rfl rfl rfl rfl rfl rfl rfl

/-- A frame too short to decode, and then the next read, on the example
connection. -/
theorem handleConnection_routing_failure_witness :
    (handleConnection demoConn 1 demoServer (demoWorld [(1, [9])])).events =
      [.read (.ok (1, [9])), .decode [9] (.error "short frame"),
        .write 1 (bytes "short frame") none] ∧
    (handleConnection demoConn 1 demoServer (demoWorld [(1, [9])])).returned = false ∧
    ∃ rest, (handleConnection demoConn 2 demoServer (demoWorld [(1, [9])])).events =
      (handleConnection demoConn 1 demoServer (demoWorld [(1, [9])])).events ++
        .read (.error "EOF") :: rest :=
  have h := handleConnection_routing_failure demoConn 0 demoServer (demoWorld [(1, [9])])
    1 [9] (demoWorld []) (.error "short frame") (demoWorld []) "short frame" rfl rfl rfl
    (Or.inl rfl)
  ⟨h.1, (h.2 rfl).1, (h.2 rfl).2 0⟩

/-- A request to the failing method on the example connection. -/
theorem handleConnection_handler_error_witness :
    (handleConnection demoConn 1 demoServer (demoWorld [(2, [1, 2, 5])])).events =
      [.read (.ok (2, [1, 2, 5])), .decode [1, 2, 5] (.ok (1, 2, [5])),
        .invoke demoFail [5] (.error "boom"), .write 2 (bytes "boom") none] :=
  handleConnection_handler_error demoConn 0 demoServer (demoWorld [(2, [1, 2, 5])])
    2 [1, 2, 5] (demoWorld []) 1 2 [5] (demoWorld []) demoService demoFail "boom"
    { demoWorld [] with handled := 1 } rfl rfl rfl rfl rfl rfl

/-- C3 as stated fails.  On the example connection the request `[1, 2, 5]` is
decoded and routed to the failing handler, which returns the error `boom`; the
run never calls `Encode`, and the frame written is the plain bytes of `boom`,
not a frame produced by `Encode`. -/
theorem handler_error_not_encoded :
    demoCodec.Decode [1, 2, 5] (demoWorld []) = (.ok (1, 2, [5]), demoWorld []) ∧
    (demoServer.GetService 1).1 = .ok demoService ∧
    demoService.GetEndpointHandler 2 = .ok demoFail ∧
    (demoFail [5] (demoWorld [])).1 = .error "boom" ∧
    (handleConnection demoConn 2 demoServer (demoWorld [(2, [1, 2, 5])])).returned = true ∧
    (handleConnection demoConn 2 demoServer (demoWorld [(2, [1, 2, 5])])).events.any
      Event.isEncode = false ∧
    writes (handleConnection demoConn 2 demoServer (demoWorld [(2, [1, 2, 5])])).events =
      [(2, bytes "boom")] :=
  ⟨rfl, rfl, rfl, rfl, by decide, by decide, by decide⟩


omit [ToString ProtoID] in
theorem no_failed_write_of_all (l : List (Event ProtoID Val ω))
    (h : l.all (fun e => !(e.isWrite && e.isTransportFailure)) = true) :
    ∀ mt d err, Event.write mt d (some err) ∉ l := by
  intro mt d err hm
  have := List.all_eq_true.1 h _ hm
  simp [Event.isTransportFailure, Event.isWrite] at this

end dispatch

/-- Three requests on the example connection (an echo, an undecodable frame, a
failing method), then the end of the stream: three replies, in that order. -/
theorem handleConnection_replies_in_order_witness :
    ∃ xs : List (Exchange Nat Frame DemoWorld), ∃ tail : List (Event Nat Frame DemoWorld),
      (handleConnection demoConn 5 demoServer
          (demoWorld [(1, [1, 1, 7]), (1, [9]), (2, [1, 2, 5])])).events =
        (xs.map Exchange.events).flatten ++ tail ∧
      (tail = [] ∨ ∃ e, tail = [.read (.error e), .close]) ∧
      (∀ x ∈ xs, x.server = demoServer) ∧
      [(1, [1, 1, 7]), (1, [9]), (2, [1, 2, 5])] =
        xs.map (fun x => (x.messageType, x.request)) ∧
      [(1, [1, 1, 7]), (1, bytes "short frame"), (2, bytes "boom")] =
        xs.map (fun x => (x.messageType, x.reply)) := by
  obtain ⟨xs, tail, h1, h2, h3, h4, h5, -⟩ :=
    handleConnection_replies_in_order demoConn 5 demoServer
      (demoWorld [(1, [1, 1, 7]), (1, [9]), (2, [1, 2, 5])])
      (no_failed_write_of_all _ (by decide))
  refine ⟨xs, tail, h1, h2, h3, ?_, ?_⟩
  · rw [← h4]; decide
  · rw [← h5]; decide

end websocket

/-! ## Theorems: the gRPC response encoders -/

namespace customercontainer

/-- C9 (defect in the code). For a `CreateDockerImageResponse` without error and
with `ID` `sha256:ab12` the encoder returns a message whose `ID` is empty, not
`sha256:ab12`: the assignment of `ID` sits inside the `if res.Error != nil`
block.  `EncodeGRPCCreateContainerResponse` does carry the `ID` of an error-free
response over. -/
theorem EncodeGRPCCreateDockerImageResponse_drops_ID :
    EncodeGRPCCreateDockerImageResponse
        ({ ID := "sha256:ab12", Error := none } : CreateDockerImageResponse String) =
      .ok { ID := "", Error := "" } ∧
    "" ≠ "sha256:ab12" ∧
    EncodeGRPCCreateContainerResponse
        ({ ID := "c-1", Name := "web", Error := none } : CreateContainerResponse String String) =
      .ok { ID := "c-1", Name := "web", Error := "" } :=
  ⟨rfl, by decide, rfl⟩

end customercontainer

/-! ## Theorems: the mock table -/

namespace testutils

theorem typeCheck_eq (t : table) (row : Row) :
    t.typeCheck row = if row.elem = .struct t.ref then none else some .ErrTypeMismatch := by
  unfold table.typeCheck
  by_cases h : row.elem = .struct t.ref <;> simp [h]

theorem step_insert_fail (bits : Nat) (st : State) (row : Row)
    (h : row.elem ≠ .struct st.table.ref) :
    step bits st (.insert row) = (some .ErrTypeMismatch, st) := by
  simp [step, table.insert, typeCheck_eq, h]

theorem step_insert_ok (bits : Nat) (st : State) (row : Row)
    (h : row.elem = .struct st.table.ref) :
    step bits st (.insert row) =
      (none,
        ⟨{ st.table with
            count := (st.table.count + 1) % 2 ^ bits, rows := st.table.rows ++ [row] },
          if st.table.idx then
            fun a => if a = row.addr then (st.table.count + 1) % 2 ^ bits else st.heap a
          else st.heap⟩) := by
  simp [step, table.insert, typeCheck_eq, h]

theorem firstWithID_some (h : Heap) (id : Nat) :
    ∀ (rows : List Row) (i : Nat), firstWithID h id rows = some i →
      ∃ pre row post, rows = pre ++ row :: post ∧ pre.length = i ∧ h row.addr = id ∧
        (∀ r ∈ pre, h r.addr ≠ id) ∧ rows.take i ++ rows.drop (i + 1) = pre ++ post := by
  intro rows
  induction rows with
  | nil => intro i hi; simp [firstWithID] at hi
  | cons row rest ih =>
    intro i hi
    unfold firstWithID at hi
    by_cases hr : h row.addr = id
    · rw [if_pos hr] at hi
      cases hi
      exact ⟨[], row, rest, rfl, rfl, hr, by simp, by simp⟩
    · rw [if_neg hr] at hi
      cases hj : firstWithID h id rest with
      | none => rw [hj] at hi; simp at hi
      | some j =>
        rw [hj] at hi
        simp only [Option.map_some', Option.some.injEq] at hi
        subst hi
        obtain ⟨pre, r, post, h1, h2, h3, h4, h5⟩ := ih j hj
        refine ⟨row :: pre, r, post, by rw [h1]; rfl, by simp [h2], h3, ?_, ?_⟩
        · intro x hx
          rcases List.mem_cons.1 hx with rfl | hx
          · exact hr
          · exact h4 x hx
        · simp only [List.take_succ_cons, List.drop_succ_cons, List.cons_append, h5]

theorem firstWithID_none (h : Heap) (id : Nat) (rows : List Row) :
    firstWithID h id rows = none ↔ ∀ r ∈ rows, h r.addr ≠ id := by
  induction rows with
  | nil => simp [firstWithID]
  | cons row rest ih =>
    unfold firstWithID
    by_cases hr : h row.addr = id
    · simp [hr]
    · simp [hr, ih]

theorem delete_sublist (t : table) (h : Heap) (id : Nat) :
    (t.delete h id).2.rows.Sublist t.rows ∧ (t.delete h id).2.count = t.count ∧
      (t.delete h id).2.idx = t.idx ∧ (t.delete h id).2.ref = t.ref := by
  unfold table.delete
  cases firstWithID h id t.rows with
  | none => exact ⟨List.Sublist.refl _, rfl, rfl, rfl⟩
  | some i =>
    refine ⟨?_, rfl, rfl, rfl⟩
    simp only
    rw [← List.eraseIdx_eq_take_drop_succ]
    exact List.eraseIdx_sublist _ _

theorem okInserts_delete (id : Nat) (ops : List Op) (r : Option Error) (res : List (Option Error)) :
    okInserts (.delete id :: ops) (r :: res) = okInserts ops res := by
  cases r <;> simp [okInserts]

/-- The invariant of a table with an `ID` column, carried along a run. -/
theorem run_invariant (bits : Nat) (ops : List Op) :
    ∀ st : State, st.table.idx = true →
      (st.table.rows.map (fun r => r.addr) ++ insertedAddrs ops).Nodup →
      st.ids.Pairwise (· < ·) →
      (∀ x ∈ st.ids, 1 ≤ x ∧ x ≤ st.table.count) →
      st.table.count + okInserts ops (run bits st ops).1 < 2 ^ bits →
      (run bits st ops).2.table.count = st.table.count + okInserts ops (run bits st ops).1 ∧
      (run bits st ops).2.ids.Pairwise (· < ·) ∧
      (∀ x ∈ (run bits st ops).2.ids, 1 ≤ x ∧ x ≤ (run bits st ops).2.table.count) := by
  induction ops with
  | nil =>
    intro st _ _ hp hb _
    exact ⟨by simp [run, okInserts], hp, hb⟩
  | cons op ops ih =>
    intro st hidx hnd hp hb hlt
    cases op with
    | insert row =>
      by_cases hty : row.elem = .struct st.table.ref
      · have hs := step_insert_ok bits st row hty
        rw [hidx] at hs
        simp only [if_true] at hs
        simp only [run, hs, okInserts] at hlt ⊢
        have hc : (st.table.count + 1) % 2 ^ bits = st.table.count + 1 :=
          Nat.mod_eq_of_lt (by omega)
        rw [hc] at hlt ⊢
        have hnot : row.addr ∉ st.table.rows.map (fun r => r.addr) := by
          intro hm
          simp only [insertedAddrs] at hnd
          exact (List.nodup_append.1 hnd).2.2 hm (List.mem_cons_self _ _)
        have hids : State.ids
            ⟨{ st.table with count := st.table.count + 1, rows := st.table.rows ++ [row] },
              fun a => if a = row.addr then st.table.count + 1 else st.heap a⟩ =
            st.ids ++ [st.table.count + 1] := by
          simp only [State.ids, List.map_append, List.map_cons, List.map_nil, if_true]
          congr 1
          apply List.map_congr_left
          intro r hr
          have : r.addr ≠ row.addr := fun he => hnot (he ▸ List.mem_map_of_mem _ hr)
          simp [this]
        have := ih
          ⟨{ st.table with count := st.table.count + 1, rows := st.table.rows ++ [row] },
            fun a => if a = row.addr then st.table.count + 1 else st.heap a⟩
          hidx
          (by simpa [insertedAddrs, List.append_assoc] using hnd)
          (by
            rw [hids, List.pairwise_append]
            refine ⟨hp, List.pairwise_singleton _ _, ?_⟩
            intro a ha b hb'
            simp only [List.mem_singleton] at hb'
            have := (hb a ha).2
            omega)
          (by
            rw [hids]
            intro x hx
            simp only [List.mem_append, List.mem_singleton] at hx
            rcases hx with hx | rfl
            · have := hb x hx
              simp only
              omega
            · simp only
              omega)
          (by simp only; omega)
        simp only at this
        refine ⟨by omega, this.2.1, this.2.2⟩
      · have hs := step_insert_fail bits st row hty
        simp only [run, hs, okInserts] at hlt ⊢
        exact ih st hidx
          (by
            simp only [insertedAddrs] at hnd
            exact hnd.sublist
              (List.Sublist.append (List.Sublist.refl _) (List.sublist_cons_self _ _)))
          hp hb hlt
    | delete id =>
      obtain ⟨h1, h2, h3, -⟩ := delete_sublist st.table st.heap id
      have hsub : (State.ids ⟨(st.table.delete st.heap id).2, st.heap⟩).Sublist st.ids :=
        List.Sublist.map _ h1
      simp only [run, step, okInserts_delete] at hlt ⊢
      have := ih ⟨(st.table.delete st.heap id).2, st.heap⟩ (by simp only [h3, hidx])
        (by
          simp only [insertedAddrs] at hnd
          exact hnd.sublist (List.Sublist.append (List.Sublist.map _ h1) (List.Sublist.refl _)))
        (hp.sublist hsub)
        (by
          intro x hx
          simp only [h2]
          exact hb x (hsub.subset hx))
        (by simp only [h2]; exact hlt)
      simp only [h2] at this
      exact this

theorem okInserts_insert_none (row : Row) (ops : List Op) (res : List (Option Error)) :
    okInserts (.insert row :: ops) (none :: res) = okInserts ops res + 1 := by
  simp [okInserts]

theorem okInserts_insert_some (row : Row) (e : Error) (ops : List Op)
    (res : List (Option Error)) :
    okInserts (.insert row :: ops) (some e :: res) = okInserts ops res := by
  simp [okInserts]

theorem run_append (bits : Nat) (a b : List Op) :
    ∀ st : State, run bits st (a ++ b) =
      ((run bits st a).1 ++ (run bits (run bits st a).2 b).1, (run bits (run bits st a).2 b).2) := by
  induction a with
  | nil => intro st; simp [run]
  | cons op a ih => intro st; simp [run, ih]

theorem run_length (bits : Nat) (ops : List Op) :
    ∀ st : State, (run bits st ops).1.length = ops.length := by
  induction ops with
  | nil => intro st; simp [run]
  | cons op ops ih => intro st; simp [run, ih]

theorem okInserts_append (a b : List Op) :
    ∀ (ra rb : List (Option Error)), ra.length = a.length →
      okInserts (a ++ b) (ra ++ rb) = okInserts a ra + okInserts b rb := by
  induction a with
  | nil =>
    intro ra rb h
    have : ra = [] := List.length_eq_zero.1 h
    subst this
    simp [okInserts]
  | cons op a ih =>
    intro ra rb h
    cases ra with
    | nil => simp at h
    | cons r ra =>
      have hl : ra.length = a.length := by simpa using h
      cases op with
      | insert row =>
        cases r with
        | none =>
          rw [List.cons_append, List.cons_append, okInserts_insert_none, okInserts_insert_none,
            ih ra rb hl]
          omega
        | some e =>
          rw [List.cons_append, List.cons_append, okInserts_insert_some, okInserts_insert_some,
            ih ra rb hl]
      | delete id =>
        rw [List.cons_append, List.cons_append, okInserts_delete, okInserts_delete, ih ra rb hl]

theorem okInserts_run_append (bits : Nat) (a b : List Op) (st : State) :
    okInserts (a ++ b) (run bits st (a ++ b)).1 =
      okInserts a (run bits st a).1 + okInserts b (run bits (run bits st a).2 b).1 := by
  rw [run_append]
  exact okInserts_append a b _ _ (run_length bits a st)

theorem step_ref_idx (bits : Nat) (st : State) (op : Op) :
    (step bits st op).2.table.ref = st.table.ref ∧ (step bits st op).2.table.idx = st.table.idx := by
  cases op with
  | insert row =>
    by_cases hty : row.elem = .struct st.table.ref
    · rw [step_insert_ok bits st row hty]; exact ⟨rfl, rfl⟩
    · rw [step_insert_fail bits st row hty]; exact ⟨rfl, rfl⟩
  | delete id =>
    obtain ⟨-, -, h3, h4⟩ := delete_sublist st.table st.heap id
    exact ⟨h4, h3⟩

theorem run_ref_idx (bits : Nat) (ops : List Op) :
    ∀ st : State, (run bits st ops).2.table.ref = st.table.ref ∧
      (run bits st ops).2.table.idx = st.table.idx := by
  induction ops with
  | nil => intro st; exact ⟨rfl, rfl⟩
  | cons op ops ih =>
    intro st
    obtain ⟨h1, h2⟩ := step_ref_idx bits st op
    obtain ⟨h3, h4⟩ := ih (step bits st op).2
    simp only [run]
    exact ⟨h3.trans h1, h4.trans h2⟩

/-- Whatever the calls, `count` is the number of successful inserts modulo
`2 ^ bits`. -/
theorem run_count_mod (bits : Nat) (ops : List Op) :
    ∀ st : State, st.table.count < 2 ^ bits →
      (run bits st ops).2.table.count =
        (st.table.count + okInserts ops (run bits st ops).1) % 2 ^ bits := by
  induction ops with
  | nil => intro st h; simp [run, okInserts, Nat.mod_eq_of_lt h]
  | cons op ops ih =>
    intro st h
    cases op with
    | insert row =>
      by_cases hty : row.elem = .struct st.table.ref
      · have hs := step_insert_ok bits st row hty
        simp only [run, hs, okInserts]
        rw [ih _ (by simp only; exact Nat.mod_lt _ (Nat.pos_pow_of_pos bits (by decide)))]
        simp only
        rw [Nat.add_mod, Nat.mod_mod, ← Nat.add_mod]
        congr 1
        omega
      · have hs := step_insert_fail bits st row hty
        simp only [run, hs, okInserts]
        exact ih st h
    | delete id =>
      obtain ⟨-, h2, -, -⟩ := delete_sublist st.table st.heap id
      simp only [run, step, okInserts_delete]
      rw [ih _ (by simp only [h2]; exact h)]
      simp only [h2]

theorem insertedAddrs_append (a b : List Op) :
    insertedAddrs (a ++ b) = insertedAddrs a ++ insertedAddrs b := by
  induction a with
  | nil => rfl
  | cons op a ih => cases op <;> simp [insertedAddrs, ih]

theorem insertedAddrs_churn (n : Nat) : insertedAddrs (churn n) = List.range n := by
  induction n with
  | zero => rfl
  | succ n ih => simp [churn, insertedAddrs_append, insertedAddrs, ih, List.range_succ]

theorem okInserts_churn (bits n : Nat) :
    ∀ st : State, st.table.ref = demoRef → okInserts (churn n) (run bits st (churn n)).1 = n := by
  induction n with
  | zero => intro st _; simp [churn, run, okInserts]
  | succ n ih =>
    intro st href
    rw [churn, okInserts_run_append, ih st href]
    have hr := (run_ref_idx bits (churn n) st).1
    have hty : (Row.mk (.struct demoRef) n).elem = .struct (run bits st (churn n)).2.table.ref := by
      rw [hr, href]
    simp only [run, step_insert_ok bits _ _ hty, okInserts_insert_none, okInserts_delete]
    simp [okInserts]

theorem firstWithID_append (h : Heap) (id : Nat) (row : Row) (post : List Row)
    (hrow : h row.addr = id) :
    ∀ pre : List Row, (∀ r ∈ pre, h r.addr ≠ id) →
      firstWithID h id (pre ++ row :: post) = some pre.length := by
  intro pre
  induction pre with
  | nil => intro _; simp [firstWithID, hrow]
  | cons r pre ih =>
    intro hpre
    have hr : h r.addr ≠ id := hpre r (List.mem_cons_self _ _)
    have := ih (fun x hx => hpre x (List.mem_cons_of_mem _ hx))
    simp [firstWithID, hr, this]

theorem take_drop_middle (pre : List Row) (row : Row) (post : List Row) :
    (pre ++ row :: post).take pre.length ++ (pre ++ row :: post).drop (pre.length + 1) =
      pre ++ post := by
  induction pre with
  | nil => simp
  | cons r pre ih => simp

theorem delete_first (t : table) (h : Heap) (id : Nat) (pre : List Row) (row : Row)
    (post : List Row) (hrows : t.rows = pre ++ row :: post) (hrow : h row.addr = id)
    (hpre : ∀ r ∈ pre, h r.addr ≠ id) :
    t.delete h id = (none, { t with rows := pre ++ post }) := by
  unfold table.delete
  rw [hrows, firstWithID_append h id row post hrow pre hpre]
  simp only [take_drop_middle]

/-- C10, with the bound that `count` being a `uint` forces.  On a table made by
`newTable` over a row type with an `ID` field, after any sequence of `insert`
calls (with pairwise distinct pointer rows) and `delete` calls in which fewer
than `2 ^ bits` inserts returned no error: `count` is the number of inserts
that returned no error; the `ID`s of the rows are strictly increasing in row
order, hence pairwise distinct, and lie between `1` and `count`; and the
successful insert that follows a prefix `pre` of the calls gives its row the
`ID` "successful inserts in `pre`, plus one", so no `ID` is handed out twice.
For the single calls, on any table: an insert that fails the type check
returns `ErrTypeMismatch` and changes nothing; a successful insert increments
`count` (modulo `2 ^ bits`), stores it as the `ID` of the new row, touches no
other memory, and appends the row last; `delete` never changes `count`,
returns `ErrNotFound` and changes nothing when no row has the `ID`, and
otherwise removes exactly the first row that has it. -/
theorem table_ids_invariant (bits : Nat) (ref : StructType) (name : String) (h0 : Heap)
    (ops : List Op)
    (hid : "ID" ∈ ref.fields)
    (hdistinct : (insertedAddrs ops).Nodup)
    (hbound : okInserts ops (run bits ⟨newTable ref name, h0⟩ ops).1 < 2 ^ bits) :
    (run bits ⟨newTable ref name, h0⟩ ops).2.table.count =
      okInserts ops (run bits ⟨newTable ref name, h0⟩ ops).1 ∧
    (run bits ⟨newTable ref name, h0⟩ ops).2.ids.Pairwise (· < ·) ∧
    (run bits ⟨newTable ref name, h0⟩ ops).2.ids.Nodup ∧
    (∀ x ∈ (run bits ⟨newTable ref name, h0⟩ ops).2.ids,
      1 ≤ x ∧ x ≤ (run bits ⟨newTable ref name, h0⟩ ops).2.table.count) ∧
    (∀ pre row post, ops = pre ++ .insert row :: post → row.elem = .struct ref →
      (run bits ⟨newTable ref name, h0⟩ (pre ++ [.insert row])).2.heap row.addr =
        okInserts pre (run bits ⟨newTable ref name, h0⟩ pre).1 + 1) ∧
    (∀ (t : table) (h : Heap) (row : Row), t.typeCheck row ≠ none →
      t.insert bits h row = (some .ErrTypeMismatch, t, h)) ∧
    (∀ (t : table) (h : Heap) (row : Row), t.typeCheck row = none → t.idx = true →
      (t.insert bits h row).1 = none ∧
      (t.insert bits h row).2.1 =
        { t with count := (t.count + 1) % 2 ^ bits, rows := t.rows ++ [row] } ∧
      (t.insert bits h row).2.2 row.addr = (t.count + 1) % 2 ^ bits ∧
      ∀ a, a ≠ row.addr → (t.insert bits h row).2.2 a = h a) ∧
    (∀ (t : table) (h : Heap) (id : Nat),
      (t.delete h id).2.count = t.count ∧
      ((∀ r ∈ t.rows, h r.addr ≠ id) → t.delete h id = (some .ErrNotFound, t)) ∧
      ∀ pre row post, t.rows = pre ++ row :: post → h row.addr = id →
        (∀ r ∈ pre, h r.addr ≠ id) → t.delete h id = (none, { t with rows := pre ++ post })) := by
  have hidx : (newTable ref name).idx = true := by simp [newTable, hid]
  have hmain := run_invariant bits ops ⟨newTable ref name, h0⟩ hidx
    (by simpa [newTable] using hdistinct) (by simp [State.ids, newTable])
    (by simp [State.ids, newTable]) (by simpa [newTable] using hbound)
  have hc0 : (newTable ref name).count = 0 := rfl
  simp only [hc0, Nat.zero_add] at hmain
  refine ⟨hmain.1, hmain.2.1, ?_, hmain.2.2, ?_, ?_, ?_, ?_⟩
  · exact hmain.2.1.imp (fun hlt => Nat.ne_of_lt hlt)
  · intro pre row post hops hty
    subst hops
    have hsplit := okInserts_run_append bits pre (.insert row :: post) ⟨newTable ref name, h0⟩
    have hr := run_ref_idx bits pre ⟨newTable ref name, h0⟩
    have hty' : row.elem = .struct (run bits ⟨newTable ref name, h0⟩ pre).2.table.ref := by
      rw [hr.1]; exact hty
    have hs := step_insert_ok bits (run bits ⟨newTable ref name, h0⟩ pre).2 row hty'
    rw [hr.2, hidx] at hs
    simp only [if_true] at hs
    have hone : okInserts (.insert row :: post)
        (run bits (run bits ⟨newTable ref name, h0⟩ pre).2 (.insert row :: post)).1 =
        okInserts post (run bits (step bits (run bits ⟨newTable ref name, h0⟩ pre).2
          (.insert row)).2 post).1 + 1 := by
      simp only [run]
      rw [hs, okInserts_insert_none]
    have hpre := run_invariant bits pre ⟨newTable ref name, h0⟩ hidx
      (by
        rw [insertedAddrs_append] at hdistinct
        simpa [newTable] using (List.nodup_append.1 hdistinct).1)
      (by simp [State.ids, newTable]) (by simp [State.ids, newTable])
      (by simp only [hc0, Nat.zero_add]; omega)
    simp only [hc0, Nat.zero_add] at hpre
    rw [run_append]
    simp only [run, hs, if_true]
    rw [hpre.1]
    exact Nat.mod_eq_of_lt (by omega)
  · intro t h row hne
    have := typeCheck_eq t row
    by_cases hty : row.elem = .struct t.ref
    · rw [if_pos hty] at this; exact absurd this hne
    · rw [if_neg hty] at this
      simp [table.insert, this]
  · intro t h row hok hi
    simp [table.insert, hok, hi]
    intro a ha
    simp [ha]
  · intro t h id
    refine ⟨(delete_sublist t h id).2.1, ?_, fun pre row post h1 h2 h3 =>
      delete_first t h id pre row post h1 h2 h3⟩
    intro hno
    unfold table.delete
    rw [(firstWithID_none h id t.rows).2 hno]

/-- Three successful inserts, one refused insert and two deletes on a table
of `Customer` rows, with a 64-bit `uint`. -/
theorem table_ids_invariant_witness :
    (run 64 ⟨newTable demoRef "customers", fun _ => 0⟩
        [.insert ⟨.struct demoRef, 10⟩, .insert ⟨.basic "int", 11⟩,
          .insert ⟨.struct demoRef, 12⟩, .delete 1, .insert ⟨.struct demoRef, 13⟩,
          .delete 7]).2.table.count =
      okInserts
        [.insert ⟨.struct demoRef, 10⟩, .insert ⟨.basic "int", 11⟩,
          .insert ⟨.struct demoRef, 12⟩, .delete 1, .insert ⟨.struct demoRef, 13⟩, .delete 7]
        (run 64 ⟨newTable demoRef "customers", fun _ => 0⟩
          [.insert ⟨.struct demoRef, 10⟩, .insert ⟨.basic "int", 11⟩,
            .insert ⟨.struct demoRef, 12⟩, .delete 1, .insert ⟨.struct demoRef, 13⟩,
            .delete 7]).1 ∧
    (run 64 ⟨newTable demoRef "customers", fun _ => 0⟩
        [.insert ⟨.struct demoRef, 10⟩, .insert ⟨.basic "int", 11⟩,
          .insert ⟨.struct demoRef, 12⟩, .delete 1, .insert ⟨.struct demoRef, 13⟩,
          .delete 7]).2.ids.Pairwise (· < ·) :=
  have h := table_ids_invariant 64 demoRef "customers" (fun _ => 0)
    [.insert ⟨.struct demoRef, 10⟩, .insert ⟨.basic "int", 11⟩,
      .insert ⟨.struct demoRef, 12⟩, .delete 1, .insert ⟨.struct demoRef, 13⟩, .delete 7]
    (by decide) (by decide) (by decide)
  ⟨h.1, h.2.1⟩

/-- C10 as stated fails: `count` is a `uint`.  With a 64-bit `uint`, after
`2 ^ 64` rounds of inserting a fresh `Customer` row and deleting it again, every
insert has returned no error, so `2 ^ 64` inserts succeeded, but `count` is
`0`; and the next insert gives its row the `ID` `1`, which the first insert
had already handed out. -/
theorem count_wraps_around :
    "ID" ∈ demoRef.fields ∧
    (insertedAddrs (churn (2 ^ 64) ++ [.insert ⟨.struct demoRef, 2 ^ 64⟩])).Nodup ∧
    okInserts (churn (2 ^ 64))
      (run 64 ⟨newTable demoRef "customers", fun _ => 0⟩ (churn (2 ^ 64))).1 = 2 ^ 64 ∧
    (run 64 ⟨newTable demoRef "customers", fun _ => 0⟩ (churn (2 ^ 64))).2.table.count = 0 ∧
    (run 64 ⟨newTable demoRef "customers", fun _ => 0⟩ (churn 1)).1 = [none, none] ∧
    (run 64 ⟨newTable demoRef "customers", fun _ => 0⟩ (churn 1)).2.heap 0 = 1 ∧
    (run 64 ⟨newTable demoRef "customers", fun _ => 0⟩
      (churn (2 ^ 64) ++ [.insert ⟨.struct demoRef, 2 ^ 64⟩])).2.heap (2 ^ 64) = 1 := by
  have hok := okInserts_churn 64 (2 ^ 64) ⟨newTable demoRef "customers", fun _ => 0⟩ rfl
  have hcount : (run 64 ⟨newTable demoRef "customers", fun _ => 0⟩
      (churn (2 ^ 64))).2.table.count = 0 := by
    rw [run_count_mod 64 (churn (2 ^ 64)) ⟨newTable demoRef "customers", fun _ => 0⟩
      (Nat.pos_pow_of_pos 64 (by decide)), hok]
    simp [newTable]
  refine ⟨by decide, ?_, hok, hcount, by decide, by decide, ?_⟩
  · rw [insertedAddrs_append, insertedAddrs_churn]
    simp only [insertedAddrs]
    rw [← List.range_succ]
    exact List.nodup_range _
  · have hr := run_ref_idx 64 (churn (2 ^ 64)) ⟨newTable demoRef "customers", fun _ => 0⟩
    have hty : (Row.mk (.struct demoRef) (2 ^ 64)).elem =
        .struct (run 64 ⟨newTable demoRef "customers", fun _ => 0⟩
          (churn (2 ^ 64))).2.table.ref := by
      rw [hr.1]; rfl
    have hidx : (run 64 ⟨newTable demoRef "customers", fun _ => 0⟩
        (churn (2 ^ 64))).2.table.idx = true := by
      rw [hr.2]; decide
    rw [run_append]
    generalize (run 64 ⟨newTable demoRef "customers", fun _ => 0⟩ (churn (2 ^ 64))).2 = st
      at hty hidx hcount ⊢
    simp only [run, step_insert_ok 64 st _ hty, hidx, hcount, if_true]
    decide

end testutils
